import Mathlib

/-!
# Cucina Recipe Organizer — conversion & deduction engine, shallow embedding

This file embeds the unit-conversion and inventory-deduction engine of the
Cucina Recipe Organizer (`convertMeasurement`, `getTotalInventoryInUnit`,
`hasEnoughInventory`, `deductFromInventory`) as executable Lean definitions
over exact rationals, and proves the specification's claims about them.

Quantities are modelled as `ℚ` (the source uses IEEE doubles; every claim at
stake is about the exact arithmetic of the algorithm, with the spec's
"negligible floating-point error" read as zero error in the exact model).
Identifiers are `String`s, as in the source.
-/

namespace Cucina

/-- A direct conversion edge: `quantity_in_target = quantity_in_source * factor`. -/
structure Conversion where
  toMeasurementId : String
  factor : ℚ
deriving DecidableEq

/-- A measurement unit: an id and its outgoing direct-conversion edges. -/
structure Measurement where
  id : String
  conversions : List Conversion
deriving DecidableEq

/-- One inventory record: owner, ingredient, unit, and on-hand quantity.
(The source's `getTotalInventoryInUnit` ignores `userId`; TypeScript's
structural typing lets the same records flow to all four functions, so one
record type serves throughout.) -/
structure InventoryItem where
  userId : String
  ingredientId : String
  measurementId : String
  quantity : ℚ
deriving DecidableEq

/-- One line of a deduction result: which unit stock was taken in, and how much. -/
structure DeductedLine where
  measurementId : String
  quantity : ℚ
deriving DecidableEq

/-- Result of `hasEnoughInventory`. -/
structure AvailabilityResult where
  hasEnough : Bool
  available : ℚ
deriving DecidableEq

/-- Convert a quantity from one measurement unit to another.
Mirrors `convertMeasurement` in `lib/conversions`: identity short-circuit,
then the first catalog entry whose `id` matches the source unit, then the
first conversion edge whose target matches; no multi-hop search. -/
def convertMeasurement (fromMeasurementId toMeasurementId : String) (quantity : ℚ)
    (measurements : List Measurement) : Option ℚ :=
  if fromMeasurementId = toMeasurementId then
    some quantity
  else
    match measurements.find? (fun m => m.id == fromMeasurementId) with
    | none => none
    | some fromMeasurement =>
      match fromMeasurement.conversions.find? (fun c => c.toMeasurementId == toMeasurementId) with
      | none => none
      | some c => some (quantity * c.factor)

/-- Total of an ingredient across all inventory entries, expressed in
`targetMeasurementId`. Mirrors `getTotalInventoryInUnit`: filters by
ingredient (any owner), converts each record, accumulates only the successes. -/
def getTotalInventoryInUnit (ingredientId targetMeasurementId : String)
    (inventory : List InventoryItem) (measurements : List Measurement) : ℚ :=
  let inventoryItems := inventory.filter (fun item => item.ingredientId == ingredientId)
  inventoryItems.foldl
    (fun total item =>
      match convertMeasurement item.measurementId targetMeasurementId item.quantity measurements with
      | some converted => total + converted
      | none => total) 0

/-- Mirrors `hasEnoughInventory`: delegates to `getTotalInventoryInUnit` and
compares non-strictly against the required quantity. -/
def hasEnoughInventory (ingredientId requiredMeasurementId : String) (requiredQuantity : ℚ)
    (inventory : List InventoryItem) (measurements : List Measurement) : AvailabilityResult :=
  let totalAvailable :=
    getTotalInventoryInUnit ingredientId requiredMeasurementId inventory measurements
  { hasEnough := decide (totalAvailable ≥ requiredQuantity), available := totalAvailable }

/-- The candidate records of a deduction (position in the input inventory is
kept alongside each record, as the source keeps `{item, index}` pairs):
records matching both the owner and the ingredient. -/
def deductRelevant (ingredientId : String) (inventory : List InventoryItem)
    (userId : String) : List (Nat × InventoryItem) :=
  inventory.enum.filter
    (fun p => p.2.userId == userId && p.2.ingredientId == ingredientId)

/-- The processing order of `deductFromInventory`'s loop. The source sorts
with a comparator returning `-1` when the first record is an exact unit match
and `0`/`1` otherwise; for exact-vs-other pairs that comparator is consistent,
so every conforming sort yields the exact-matches-first partition, while the
order *within* each group is implementation-defined (the comparator is
inconsistent on exact/exact pairs). We model the canonical stable partition:
exact matches in input order, then the rest in input order. -/
def deductSorted (ingredientId requiredMeasurementId : String)
    (inventory : List InventoryItem) (userId : String) : List (Nat × InventoryItem) :=
  (deductRelevant ingredientId inventory userId).filter
      (fun p => p.2.measurementId == requiredMeasurementId)
    ++ (deductRelevant ingredientId inventory userId).filter
      (fun p => !(p.2.measurementId == requiredMeasurementId))

/-- The body of `deductFromInventory`'s `for` loop, one step per candidate.
State: remaining amount (in the required unit), the evolving inventory copy
(updated in place by index, removals marked with the `-1` sentinel), and the
deducted lines so far. `break` on `remaining ≤ 0` is the early return. -/
def deductLoop (requiredMeasurementId : String) (measurements : List Measurement) :
    List (Nat × InventoryItem) → ℚ → List InventoryItem → List DeductedLine →
    ℚ × List InventoryItem × List DeductedLine
  | [], remaining, inv, ded => (remaining, inv, ded)
  | (idx, item) :: rest, remaining, inv, ded =>
    if remaining ≤ 0 then (remaining, inv, ded)
    else
      match convertMeasurement requiredMeasurementId item.measurementId remaining measurements with
      | none => deductLoop requiredMeasurementId measurements rest remaining inv ded
      | some amountInItemUnit =>
        let toDeduct := min item.quantity amountInItemUnit
        let newQuantity := item.quantity - toDeduct
        let inv' := inv.set idx
          (if 1/1000 < newQuantity then { item with quantity := newQuantity }
           else { item with quantity := -1 })
        let ded' := ded ++ [{ measurementId := item.measurementId, quantity := toDeduct }]
        let remaining' :=
          match convertMeasurement item.measurementId requiredMeasurementId toDeduct measurements with
          | some back => remaining - back
          | none => remaining
        deductLoop requiredMeasurementId measurements rest remaining' inv' ded'

/-- The inventory copy as it stands after the loop, *before* the final
sentinel filter (the source's `updatedInventory` just before the last line). -/
def deductPre (ingredientId requiredMeasurementId : String) (requiredQuantity : ℚ)
    (inventory : List InventoryItem) (measurements : List Measurement)
    (userId : String) : List InventoryItem :=
  (deductLoop requiredMeasurementId measurements
    (deductSorted ingredientId requiredMeasurementId inventory userId)
    requiredQuantity inventory []).2.1

/-- The deducted lines produced by the loop. -/
def deductLines (ingredientId requiredMeasurementId : String) (requiredQuantity : ℚ)
    (inventory : List InventoryItem) (measurements : List Measurement)
    (userId : String) : List DeductedLine :=
  (deductLoop requiredMeasurementId measurements
    (deductSorted ingredientId requiredMeasurementId inventory userId)
    requiredQuantity inventory []).2.2

/-- Mirrors `deductFromInventory`: select candidates, process them exact-unit
first, then drop every record whose quantity is the `-1` removal sentinel. -/
def deductFromInventory (ingredientId requiredMeasurementId : String)
    (requiredQuantity : ℚ) (inventory : List InventoryItem)
    (measurements : List Measurement) (userId : String) :
    List InventoryItem × List DeductedLine :=
  ((deductPre ingredientId requiredMeasurementId requiredQuantity inventory measurements
      userId).filter (fun item => decide (item.quantity ≠ -1)),
   deductLines ingredientId requiredMeasurementId requiredQuantity inventory measurements userId)

/-- Spec-side quantity (§3 Invariant): the sum of the deducted lines, each
converted into the required unit (lines whose unit has no edge back to the
required unit contribute nothing, there being no value to convert them at). -/
def sumDeductedInUnit (requiredMeasurementId : String) (measurements : List Measurement)
    (lines : List DeductedLine) : ℚ :=
  (lines.map (fun l =>
    (convertMeasurement l.measurementId requiredMeasurementId l.quantity measurements).getD 0)).sum

/-- Spec-side quantity (§3 Invariant): the stock available to a deduction —
each candidate record whose unit the required unit converts into, valued in
the required unit. -/
def availableConvertibleStock (requiredMeasurementId : String)
    (measurements : List Measurement) (candidates : List InventoryItem) : ℚ :=
  (candidates.map (fun item =>
    if (convertMeasurement requiredMeasurementId item.measurementId 1 measurements).isSome then
      (convertMeasurement item.measurementId requiredMeasurementId item.quantity measurements).getD 0
    else 0)).sum

/-- A record is a candidate of a deduction when owner and ingredient match. -/
def isCandidate (ingredientId userId : String) (item : InventoryItem) : Bool :=
  item.userId == userId && item.ingredientId == ingredientId

/-- Records a deduction never touches: non-candidates, and candidates whose
unit the required unit does not convert into (which the loop skips). -/
def untouchedRecord (ingredientId requiredMeasurementId userId : String)
    (measurements : List Measurement) (item : InventoryItem) : Bool :=
  !(isCandidate ingredientId userId item) ||
    !(convertMeasurement requiredMeasurementId item.measurementId 1 measurements).isSome

/-- A catalog is consistent around the required unit when every unit the
required unit converts into converts back with the exact inverse, positive
factor. The source never checks this; the §3 invariant only holds under it. -/
def ConsistentCatalog (requiredMeasurementId : String)
    (measurements : List Measurement) : Prop :=
  ∀ u : String, (convertMeasurement requiredMeasurementId u 1 measurements).isSome →
    ∃ f g : ℚ, convertMeasurement requiredMeasurementId u 1 measurements = some f ∧
      convertMeasurement u requiredMeasurementId 1 measurements = some g ∧
      0 < f ∧ f * g = 1

/-- The one shape the loop writes back at a processed index: the record with
`t` taken — kept with the reduced quantity when that stays above the `1e-3`
epsilon, else overwritten with the `-1` removal sentinel. -/
def modForm (item : InventoryItem) (t : ℚ) : InventoryItem :=
  if 1/1000 < item.quantity - t then { item with quantity := item.quantity - t }
  else { item with quantity := -1 }

end Cucina

namespace Cucina

/-! ## Helper lemmas -/

/-- The `find?` of a list returns the element when it is the unique one satisfying the predicate. -/
theorem find?_eq_some_of_unique {α : Type} {p : α → Bool} {l : List α} {a : α}
    (ha : a ∈ l) (hpa : p a = true) (huniq : ∀ b ∈ l, p b = true → b = a) :
    l.find? p = some a := by
  induction l with
  | nil => cases ha
  | cons x xs ih =>
    by_cases hx : p x = true
    · have hxa : x = a := huniq x (List.mem_cons_self _ _) hx
      subst hxa
      exact List.find?_cons_of_pos _ hx
    · have hax : a ∈ xs := by
        rcases List.mem_cons.mp ha with rfl | h
        · exact absurd hpa hx
        · exact h
      rw [List.find?_cons_of_neg _ hx]
      exact ih hax (fun b hb hpb => huniq b (List.mem_cons_of_mem _ hb) hpb)

end Cucina

namespace Cucina

/-! ## C2 — convertMeasurement -/

/-- C2: `convertMeasurement` returns the quantity unchanged when source and
target coincide (whatever the catalog holds); otherwise, when no catalog unit
carries the source id it returns `none`; and for the catalog's unique source
unit it returns `quantity * factor` along the unique direct edge to the
target when one exists and `none` when none does — no multi-hop search. -/
theorem convertMeasurement_spec (src tgt : String) (q : ℚ) (ms : List Measurement) :
    (src = tgt → convertMeasurement src tgt q ms = some q) ∧
    (src ≠ tgt → (∀ m ∈ ms, m.id ≠ src) → convertMeasurement src tgt q ms = none) ∧
    (src ≠ tgt → ∀ m ∈ ms, m.id = src → (∀ m' ∈ ms, m'.id = src → m' = m) →
      ((∀ c ∈ m.conversions, c.toMeasurementId ≠ tgt) →
        convertMeasurement src tgt q ms = none) ∧
      (∀ c ∈ m.conversions, c.toMeasurementId = tgt →
        (∀ c' ∈ m.conversions, c'.toMeasurementId = tgt → c' = c) →
        convertMeasurement src tgt q ms = some (q * c.factor))) := by
  refine ⟨fun h => by simp [convertMeasurement, h], fun hne habs => ?_,
    fun hne m hm hid huniq => ?_⟩
  · have hnone : ms.find? (fun m => m.id == src) = none := by
      rw [List.find?_eq_none]
      intro x hx
      simpa using habs x hx
    simp [convertMeasurement, hne, hnone]
  · have hfind : ms.find? (fun m => m.id == src) = some m :=
      find?_eq_some_of_unique hm (by simpa using hid)
        (fun b hb hpb => huniq b hb (by simpa using hpb))
    constructor
    · intro hnoedge
      have hcnone : m.conversions.find? (fun c => c.toMeasurementId == tgt) = none := by
        rw [List.find?_eq_none]
        intro c hc
        simpa using hnoedge c hc
      simp [convertMeasurement, hne, hfind, hcnone]
    · intro c hc hct huniqc
      have hcfind : m.conversions.find? (fun c => c.toMeasurementId == tgt) = some c :=
        find?_eq_some_of_unique hc (by simpa using hct)
          (fun b hb hpb => huniqc b hb (by simpa using hpb))
      simp [convertMeasurement, hne, hfind, hcfind]

/-- Witness for C2 at concrete inputs: identity on an absent unit, unknown
source unit, no direct edge, and a direct edge at factor 16. -/
theorem convertMeasurement_spec_witness :
    convertMeasurement "pc" "pc" 3 [] = some 3 ∧
    convertMeasurement "oz" "g" 3 [⟨"cup", [⟨"tbsp", 16⟩]⟩] = none ∧
    convertMeasurement "cup" "g" 3 [⟨"cup", [⟨"tbsp", 16⟩]⟩] = none ∧
    convertMeasurement "cup" "tbsp" 3 [⟨"cup", [⟨"tbsp", 16⟩]⟩] = some 48 := by
  refine ⟨(convertMeasurement_spec "pc" "pc" 3 []).1 rfl,
    (convertMeasurement_spec "oz" "g" 3 [⟨"cup", [⟨"tbsp", 16⟩]⟩]).2.1 (by decide)
      (by decide),
    ((convertMeasurement_spec "cup" "g" 3 [⟨"cup", [⟨"tbsp", 16⟩]⟩]).2.2 (by decide)
      ⟨"cup", [⟨"tbsp", 16⟩]⟩ (by decide) rfl (by decide)).1 (by decide), ?_⟩
  have h := ((convertMeasurement_spec "cup" "tbsp" 3 [⟨"cup", [⟨"tbsp", 16⟩]⟩]).2.2
    (by decide) ⟨"cup", [⟨"tbsp", 16⟩]⟩ (by decide) rfl (by decide)).2
    ⟨"tbsp", 16⟩ (by decide) rfl (by decide)
  rw [h]
  norm_num

/-! ## C10 — duplicate conversion edges -/

/-- C10: when a source unit's conversion list holds more than one edge to the
same target, `convertMeasurement` deterministically applies the factor of the
first such edge in list order. -/
theorem convertMeasurement_first_edge_wins (src tgt : String) (q : ℚ)
    (mpre mpost : List Measurement) (m : Measurement)
    (cpre cpost : List Conversion) (c c2 : Conversion)
    (hne : src ≠ tgt)
    (hpre : ∀ m' ∈ mpre, m'.id ≠ src) (hid : m.id = src)
    (hconv : m.conversions = cpre ++ c :: cpost)
    (hcpre : ∀ c' ∈ cpre, c'.toMeasurementId ≠ tgt)
    (hct : c.toMeasurementId = tgt)
    (hdup : c2 ∈ cpost) (hc2t : c2.toMeasurementId = tgt) :
    convertMeasurement src tgt q (mpre ++ m :: mpost) = some (q * c.factor) := by
  have hfpre : mpre.find? (fun x => x.id == src) = none := by
    rw [List.find?_eq_none]
    intro x hx
    simpa using hpre x hx
  have hfind : (mpre ++ m :: mpost).find? (fun x => x.id == src) = some m := by
    rw [List.find?_append, hfpre, Option.none_or]
    exact List.find?_cons_of_pos _ (by simpa using hid)
  have hcf : m.conversions.find? (fun x => x.toMeasurementId == tgt) = some c := by
    rw [hconv, List.find?_append]
    have : cpre.find? (fun x => x.toMeasurementId == tgt) = none := by
      rw [List.find?_eq_none]
      intro x hx
      simpa using hcpre x hx
    rw [this, Option.none_or]
    exact List.find?_cons_of_pos _ (by simpa using hct)
  simp [convertMeasurement, hne, hfind, hcf]

/-- Witness for C10: two edges `a→b`, factors 2 then 3; the first wins. -/
theorem convertMeasurement_first_edge_wins_witness :
    convertMeasurement "a" "b" 5 [⟨"a", [⟨"b", 2⟩, ⟨"b", 3⟩]⟩] = some 10 := by
  have h := convertMeasurement_first_edge_wins "a" "b" 5 [] []
    ⟨"a", [⟨"b", 2⟩, ⟨"b", 3⟩]⟩ [] [⟨"b", 3⟩] ⟨"b", 2⟩ ⟨"b", 3⟩
    (by decide) (by decide) rfl rfl (by decide) rfl (by decide) rfl
  rw [List.nil_append] at h
  rw [h]
  norm_num

end Cucina

namespace Cucina

/-- Folding the accumulate-only-successes step equals adding the sum of the
successful conversions. -/
theorem foldl_accumulate_successes {α : Type} (conv : α → Option ℚ) :
    ∀ (l : List α) (acc : ℚ),
      l.foldl (fun total item =>
        match conv item with
        | some converted => total + converted
        | none => total) acc
        = acc + (l.filterMap conv).sum := by
  intro l
  induction l with
  | nil => simp
  | cons x xs ih =>
    intro acc
    cases h : conv x <;> simp [List.foldl_cons, List.filterMap_cons, h, ih] <;> ring

/-! ## C7 — getTotalInventoryInUnit -/

/-- C7: the total is the sum of the successful conversions of exactly the
records whose ingredient matches (any owner), failures silently skipped; it
is `0` when every matching record fails to convert (or none matches). -/
theorem getTotalInventoryInUnit_spec (ingredientId targetMeasurementId : String)
    (inventory : List InventoryItem) (measurements : List Measurement) :
    getTotalInventoryInUnit ingredientId targetMeasurementId inventory measurements =
      ((inventory.filter (fun item => item.ingredientId == ingredientId)).filterMap
        (fun item =>
          convertMeasurement item.measurementId targetMeasurementId item.quantity
            measurements)).sum ∧
    ((∀ item ∈ inventory, item.ingredientId = ingredientId →
        convertMeasurement item.measurementId targetMeasurementId item.quantity
          measurements = none) →
      getTotalInventoryInUnit ingredientId targetMeasurementId inventory measurements = 0) := by
  have hfold := foldl_accumulate_successes
    (fun item =>
      convertMeasurement item.measurementId targetMeasurementId item.quantity measurements)
    (inventory.filter (fun item => item.ingredientId == ingredientId)) 0
  refine ⟨by simpa [getTotalInventoryInUnit] using hfold, fun hall => ?_⟩
  have hnil : (inventory.filter (fun item => item.ingredientId == ingredientId)).filterMap
      (fun item =>
        convertMeasurement item.measurementId targetMeasurementId item.quantity
          measurements) = [] := by
    rw [List.filterMap_eq_nil_iff]
    intro item hitem
    rcases List.mem_filter.mp hitem with ⟨hmem, hid⟩
    exact hall item hmem (by simpa using hid)
  rw [(by simpa [getTotalInventoryInUnit] using hfold :
    getTotalInventoryInUnit ingredientId targetMeasurementId inventory measurements
      = ((inventory.filter (fun item => item.ingredientId == ingredientId)).filterMap
        (fun item =>
          convertMeasurement item.measurementId targetMeasurementId item.quantity
            measurements)).sum), hnil]
  simp

/-- Witness for C7: a mixed inventory — one record already in cups, one in
tablespoons, one in an unconvertible unit, one for another ingredient, one
for another owner — sums to the convertible matching records only; and an
all-unconvertible inventory sums to zero. -/
theorem getTotalInventoryInUnit_spec_witness :
    getTotalInventoryInUnit "flour" "cup"
      [⟨"u1", "flour", "cup", 1⟩, ⟨"u1", "flour", "tbsp", 16⟩,
       ⟨"u2", "flour", "pc", 5⟩, ⟨"u1", "salt", "cup", 9⟩]
      [⟨"cup", [⟨"tbsp", 16⟩]⟩, ⟨"tbsp", [⟨"cup", 1/16⟩]⟩] = 2 ∧
    getTotalInventoryInUnit "flour" "cup" [⟨"u1", "flour", "pc", 5⟩]
      [⟨"cup", [⟨"tbsp", 16⟩]⟩, ⟨"tbsp", [⟨"cup", 1/16⟩]⟩] = 0 := by
  constructor
  · rw [(getTotalInventoryInUnit_spec "flour" "cup"
      [⟨"u1", "flour", "cup", 1⟩, ⟨"u1", "flour", "tbsp", 16⟩,
       ⟨"u2", "flour", "pc", 5⟩, ⟨"u1", "salt", "cup", 9⟩]
      [⟨"cup", [⟨"tbsp", 16⟩]⟩, ⟨"tbsp", [⟨"cup", 1/16⟩]⟩]).1]
    simp [convertMeasurement]
    norm_num
  · exact (getTotalInventoryInUnit_spec "flour" "cup" [⟨"u1", "flour", "pc", 5⟩]
      [⟨"cup", [⟨"tbsp", 16⟩]⟩, ⟨"tbsp", [⟨"cup", 1/16⟩]⟩]).2
      (by intro item hitem hid; simp at hitem; simp [hitem, convertMeasurement])

/-! ## C8 — hasEnoughInventory -/

/-- C8: `hasEnoughInventory` reports exactly the total computed by
`getTotalInventoryInUnit`, and `hasEnough` is true precisely when that total
is at least the required quantity — non-strict, so exact equality counts. -/
theorem hasEnoughInventory_spec (ingredientId requiredMeasurementId : String)
    (requiredQuantity : ℚ) (inventory : List InventoryItem)
    (measurements : List Measurement) :
    (hasEnoughInventory ingredientId requiredMeasurementId requiredQuantity inventory
        measurements).available =
      getTotalInventoryInUnit ingredientId requiredMeasurementId inventory measurements ∧
    ((hasEnoughInventory ingredientId requiredMeasurementId requiredQuantity inventory
        measurements).hasEnough = true ↔
      (hasEnoughInventory ingredientId requiredMeasurementId requiredQuantity inventory
        measurements).available ≥ requiredQuantity) ∧
    ((hasEnoughInventory ingredientId requiredMeasurementId requiredQuantity inventory
        measurements).available = requiredQuantity →
      (hasEnoughInventory ingredientId requiredMeasurementId requiredQuantity inventory
        measurements).hasEnough = true) := by
  refine ⟨rfl, by simp [hasEnoughInventory], fun h => ?_⟩
  simp only [hasEnoughInventory] at h ⊢
  simp [h.ge]

/-- Witness for C8: available exactly equals the requirement (2 cups held,
2 required) and `hasEnough` reports `true`. -/
theorem hasEnoughInventory_spec_witness :
    (hasEnoughInventory "flour" "cup" 2
      [⟨"u1", "flour", "cup", 2⟩] [⟨"cup", [⟨"tbsp", 16⟩]⟩]).hasEnough = true := by
  exact (hasEnoughInventory_spec "flour" "cup" 2
    [⟨"u1", "flour", "cup", 2⟩] [⟨"cup", [⟨"tbsp", 16⟩]⟩]).2.2
    (by simp [hasEnoughInventory, getTotalInventoryInUnit, convertMeasurement])

end Cucina

namespace Cucina

/-! ## Conversion lemmas -/

/-- Whether a conversion succeeds does not depend on the quantity converted. -/
theorem convertMeasurement_isSome_congr (a b : String) (ms : List Measurement) (q q' : ℚ) :
    (convertMeasurement a b q ms).isSome = (convertMeasurement a b q' ms).isSome := by
  by_cases h : a = b
  · simp [convertMeasurement, h]
  · cases hfind : ms.find? (fun m => m.id == a) with
    | none => simp [convertMeasurement, h, hfind]
    | some m =>
      cases hc : m.conversions.find? (fun c => c.toMeasurementId == b) with
      | none => simp [convertMeasurement, h, hfind, hc]
      | some c => simp [convertMeasurement, h, hfind, hc]

/-- Conversion is linear in the quantity: the unit-quantity factor scales. -/
theorem convertMeasurement_linear (a b : String) (ms : List Measurement) (f : ℚ)
    (h : convertMeasurement a b 1 ms = some f) (q : ℚ) :
    convertMeasurement a b q ms = some (q * f) := by
  by_cases hab : a = b
  · simp [convertMeasurement, hab] at h ⊢
    rw [← h, mul_one]
  · cases hfind : ms.find? (fun m => m.id == a) with
    | none => simp [convertMeasurement, hab, hfind] at h
    | some m =>
      cases hc : m.conversions.find? (fun c => c.toMeasurementId == b) with
      | none => simp [convertMeasurement, hab, hfind, hc] at h
      | some c =>
        simp only [convertMeasurement, if_neg hab, hfind, hc, one_mul,
          Option.some.injEq] at h ⊢
        rw [h]

/-! ## Deduction loop lemmas -/

/-- Every entry of the processing list points back into the inventory it was
built from, and is a candidate (owner and ingredient both match). -/
theorem mem_deductSorted (i r u : String) (inv : List InventoryItem)
    (p : Nat × InventoryItem) (hp : p ∈ deductSorted i r inv u) :
    inv[p.1]? = some p.2 ∧ isCandidate i u p.2 = true := by
  have hrel : p ∈ deductRelevant i inv u := by
    rcases List.mem_append.mp hp with h | h
    · exact (List.mem_filter.mp h).1
    · exact (List.mem_filter.mp h).1
  rcases List.mem_filter.mp hrel with ⟨henum, hpred⟩
  refine ⟨List.mem_enum_iff_getElem?.mp henum, ?_⟩
  simpa [isCandidate] using hpred

/-- The loop never changes the length of the inventory copy. -/
theorem deductLoop_length (req : String) (ms : List Measurement) :
    ∀ (cs : List (Nat × InventoryItem)) (R : ℚ) (inv : List InventoryItem)
      (ded : List DeductedLine),
      ((deductLoop req ms cs R inv ded).2.1).length = inv.length := by
  intro cs
  induction cs with
  | nil => intro R inv ded; rfl
  | cons hd rest ih =>
    intro R inv ded
    obtain ⟨idx, item⟩ := hd
    by_cases hR : R ≤ 0
    · simp [deductLoop, hR]
    · cases hconv : convertMeasurement req item.measurementId R ms with
      | none => simp [deductLoop, hR, hconv, ih]
      | some amount => simp [deductLoop, hR, hconv, ih]

/-- What the loop does to each position of the inventory copy: an entry is
either left exactly as it started, or — only at the position of a candidate
record whose unit the required unit converts into — overwritten once with the
record after taking `t ≤ quantity`: reduced if still above epsilon, the `-1`
sentinel otherwise. -/
theorem deductLoop_entries (req i u : String) (ms : List Measurement)
    (inv0 : List InventoryItem) :
    ∀ (cs : List (Nat × InventoryItem)) (R : ℚ) (inv : List InventoryItem)
      (ded : List DeductedLine),
      (∀ p ∈ cs, inv0[p.1]? = some p.2 ∧ isCandidate i u p.2 = true) →
      inv.length = inv0.length →
      (∀ j : Nat, inv[j]? = inv0[j]? ∨
        ∃ item t, inv0[j]? = some item ∧ t ≤ item.quantity ∧
          isCandidate i u item = true ∧
          (convertMeasurement req item.measurementId 1 ms).isSome = true ∧
          inv[j]? = some (modForm item t)) →
      ∀ j : Nat, ((deductLoop req ms cs R inv ded).2.1)[j]? = inv0[j]? ∨
        ∃ item t, inv0[j]? = some item ∧ t ≤ item.quantity ∧
          isCandidate i u item = true ∧
          (convertMeasurement req item.measurementId 1 ms).isSome = true ∧
          ((deductLoop req ms cs R inv ded).2.1)[j]? = some (modForm item t) := by
  intro cs
  induction cs with
  | nil => intro R inv ded _ _ hinv j; exact hinv j
  | cons hd rest ih =>
    intro R inv ded hcs hlen hinv j
    obtain ⟨idx, item⟩ := hd
    by_cases hR : R ≤ 0
    · simp only [deductLoop, if_pos hR]
      exact hinv j
    · cases hconv : convertMeasurement req item.measurementId R ms with
      | none =>
        simp only [deductLoop, if_neg hR, hconv]
        exact ih R inv ded (fun p hp => hcs p (List.mem_cons_of_mem _ hp)) hlen hinv j
      | some amount =>
        simp only [deductLoop, if_neg hR, hconv]
        have hhead := hcs (idx, item) (List.mem_cons_self _ _)
        have hidx0 : idx < inv0.length := by
          rcases List.getElem?_eq_some_iff.mp hhead.1 with ⟨hlt, _⟩
          exact hlt
        have hidx : idx < inv.length := by rw [hlen]; exact hidx0
        refine ih _ _ _ (fun p hp => hcs p (List.mem_cons_of_mem _ hp))
          (by rw [List.length_set]; exact hlen) (fun k => ?_) j
        by_cases hk : k = idx
        · subst hk
          refine Or.inr ⟨item, min item.quantity amount, hhead.1, min_le_left _ _,
            hhead.2, ?_, ?_⟩
          · rw [convertMeasurement_isSome_congr req item.measurementId ms 1 R, hconv]
            rfl
          · rw [List.getElem?_set_self hidx]
            rfl
        · rw [List.getElem?_set_ne (fun h => hk h.symm)]
          exact hinv k

end Cucina

namespace Cucina

/-- The first component of `deductFromInventory` is the pre-filter inventory
with every sentinel-marked record dropped. -/
theorem deductFromInventory_fst (i r u : String) (q : ℚ)
    (inv : List InventoryItem) (ms : List Measurement) :
    (deductFromInventory i r q inv ms u).1 =
      (deductPre i r q inv ms u).filter (fun item => decide (item.quantity ≠ -1)) := rfl

/-- With nothing left to deduct the loop stops at once, touching nothing. -/
theorem deductLoop_nonpos (req : String) (ms : List Measurement)
    (cs : List (Nat × InventoryItem)) (R : ℚ) (inv : List InventoryItem)
    (ded : List DeductedLine) (hR : R ≤ 0) :
    deductLoop req ms cs R inv ded = (R, inv, ded) := by
  cases cs with
  | nil => rfl
  | cons hd rest =>
    obtain ⟨idx, item⟩ := hd
    simp [deductLoop, hR]

/-! ## C4 — epsilon cleanup -/

/-- C4: any inventory position either survives the deduction untouched, or —
having been taken from — holds the record minus some `t ≤ quantity`: kept in
`updatedInventory` with the reduced quantity when that stays above the `1e-3`
epsilon, and otherwise overwritten with the removal sentinel and absent from
`updatedInventory`, never kept as a near-zero entry. -/
theorem deduct_epsilon_cleanup (i r u : String) (q : ℚ)
    (inv : List InventoryItem) (ms : List Measurement)
    (idx : Nat) (item : InventoryItem) (h : inv[idx]? = some item) :
    (deductPre i r q inv ms u)[idx]? = some item ∨
    ∃ t, t ≤ item.quantity ∧
      ((1/1000 < item.quantity - t ∧
        (deductPre i r q inv ms u)[idx]? =
          some { item with quantity := item.quantity - t } ∧
        { item with quantity := item.quantity - t } ∈
          (deductFromInventory i r q inv ms u).1) ∨
       (item.quantity - t ≤ 1/1000 ∧
        (deductPre i r q inv ms u)[idx]? = some { item with quantity := -1 } ∧
        { item with quantity := -1 } ∉ (deductFromInventory i r q inv ms u).1)) := by
  have hent := deductLoop_entries r i u ms inv (deductSorted i r inv u) q inv []
    (fun p hp => mem_deductSorted i r u inv p hp) rfl (fun j => Or.inl rfl) idx
  simp only [deductPre]
  rcases hent with hsame | ⟨item', t, hitem', hle, _, _, hpre⟩
  · left
    rw [hsame, h]
  · right
    have heq : item' = item := (Option.some.inj (h.symm.trans hitem')).symm
    subst heq
    refine ⟨t, hle, ?_⟩
    by_cases heps : 1/1000 < item'.quantity - t
    · left
      have hform : modForm item' t = { item' with quantity := item'.quantity - t } := by
        unfold modForm
        rw [if_pos heps]
      refine ⟨heps, by rw [hpre, hform], ?_⟩
      rw [deductFromInventory_fst]
      refine List.mem_filter.mpr ⟨?_, ?_⟩
      · rw [hform] at hpre
        have hpre' : (deductPre i r q inv ms u)[idx]? =
            some { item' with quantity := item'.quantity - t } := hpre
        rcases List.getElem?_eq_some_iff.mp hpre' with ⟨hlt, hget⟩
        rw [← hget]
        exact List.getElem_mem hlt
      · have hne : item'.quantity - t ≠ -1 := by
          intro hc
          rw [hc] at heps
          linarith
        simpa using hne
    · right
      have hform : modForm item' t = { item' with quantity := -1 } := by
        unfold modForm
        rw [if_neg heps]
      refine ⟨le_of_not_lt heps, by rw [hpre, hform], ?_⟩
      rw [deductFromInventory_fst]
      intro hmem
      have := (List.mem_filter.mp hmem).2
      simp at this

/-- Witness for C4: one candidate record of quantity `1/2` cup, a required
quantity leaving `0.0005 ≤ 1e-3` behind: the record is taken from and dropped
from the result. -/
theorem deduct_epsilon_cleanup_witness :
    (deductPre "flour" "cup" (1/2 - 1/2000) [⟨"u1", "flour", "cup", 1/2⟩] [] "u1")[0]? =
      some ⟨"u1", "flour", "cup", 1/2⟩ ∨
    ∃ t, t ≤ (1/2 : ℚ) ∧
      ((1/1000 < 1/2 - t ∧
        (deductPre "flour" "cup" (1/2 - 1/2000) [⟨"u1", "flour", "cup", 1/2⟩] [] "u1")[0]? =
          some ⟨"u1", "flour", "cup", 1/2 - t⟩ ∧
        (⟨"u1", "flour", "cup", 1/2 - t⟩ : InventoryItem) ∈
          (deductFromInventory "flour" "cup" (1/2 - 1/2000)
            [⟨"u1", "flour", "cup", 1/2⟩] [] "u1").1) ∨
       (1/2 - t ≤ 1/1000 ∧
        (deductPre "flour" "cup" (1/2 - 1/2000) [⟨"u1", "flour", "cup", 1/2⟩] [] "u1")[0]? =
          some ⟨"u1", "flour", "cup", -1⟩ ∧
        (⟨"u1", "flour", "cup", -1⟩ : InventoryItem) ∉
          (deductFromInventory "flour" "cup" (1/2 - 1/2000)
            [⟨"u1", "flour", "cup", 1/2⟩] [] "u1").1)) := by
  exact deduct_epsilon_cleanup "flour" "cup" "u1" (1/2 - 1/2000)
    [⟨"u1", "flour", "cup", 1/2⟩] [] 0 ⟨"u1", "flour", "cup", 1/2⟩ rfl

/-! ## C9 — the sentinel filter applies to the whole inventory -/

/-- C9: no record of `updatedInventory` carries quantity `-1`; and concretely
an input record with quantity exactly `-1` that is no candidate (other owner,
other ingredient) is removed even though the deduction never touched it. -/
theorem deduct_no_sentinel_in_result (i r u : String) (q : ℚ)
    (inv : List InventoryItem) (ms : List Measurement) :
    (∀ it ∈ (deductFromInventory i r q inv ms u).1, it.quantity ≠ -1) ∧
    deductFromInventory "flour" "cup" 2 [⟨"u2", "salt", "g", -1⟩] [] "u1" = ([], []) ∧
    (⟨"u2", "salt", "g", -1⟩ : InventoryItem) ∉
      (deductFromInventory "flour" "cup" 2 [⟨"u2", "salt", "g", -1⟩] [] "u1").1 := by
  refine ⟨fun it hit => ?_, ?_, ?_⟩
  · rw [deductFromInventory_fst] at hit
    have := (List.mem_filter.mp hit).2
    simpa using this
  · simp [deductFromInventory, deductPre, deductLines, deductSorted, deductRelevant,
      deductLoop, List.enum]
  · simp [deductFromInventory, deductPre, deductLines, deductSorted, deductRelevant,
      deductLoop, List.enum]

/-- Witness for C9: a record surviving a concrete deduction has quantity `≠ -1`. -/
theorem deduct_no_sentinel_in_result_witness :
    (⟨"u1", "flour", "cup", 4⟩ : InventoryItem).quantity ≠ -1 := by
  refine (deduct_no_sentinel_in_result "flour" "cup" "u1" 1
    [⟨"u1", "flour", "cup", 5⟩] []).1 ⟨"u1", "flour", "cup", 4⟩ ?_
  simp [deductFromInventory, deductPre, deductLines, deductSorted, deductRelevant,
    deductLoop, convertMeasurement, List.enum]
  norm_num

/-! ## C5 — no-op cases -/

/-- C5 as stated is false: with `requiredQuantity = 0 ≤ 0` the call must be a
no-op record-for-record, yet an input holding a record of quantity `-1`
(matching nobody) comes back without it. -/
theorem deduct_noop_counterexample :
    (0 : ℚ) ≤ 0 ∧
    (deductFromInventory "flour" "cup" 0 [⟨"u2", "salt", "g", -1⟩] [] "u1").1 ≠
      [⟨"u2", "salt", "g", -1⟩] := by
  refine ⟨le_refl 0, ?_⟩
  simp [deductFromInventory, deductPre, deductLines, deductSorted, deductRelevant,
    deductLoop, List.enum]

/-- C5 amended: on inventories free of the `-1` sentinel quantity,
`deductFromInventory` is a record-for-record no-op with empty deducted lines
whenever the required quantity is nonpositive, and likewise whenever no
record matches both owner and ingredient. -/
theorem deduct_noop_cases (i r u : String) (q : ℚ) (inv : List InventoryItem)
    (ms : List Measurement)
    (hclean : ∀ it ∈ inv, it.quantity ≠ -1)
    (h : q ≤ 0 ∨ ∀ it ∈ inv, ¬(it.userId = u ∧ it.ingredientId = i)) :
    deductFromInventory i r q inv ms u = (inv, []) := by
  have hfilter : inv.filter (fun it => decide (it.quantity ≠ -1)) = inv :=
    List.filter_eq_self.mpr (fun a ha => by simpa using hclean a ha)
  rcases h with hq | hnone
  · have hloop := deductLoop_nonpos r ms (deductSorted i r inv u) q inv [] hq
    have h1 : (deductFromInventory i r q inv ms u).1 = inv := by
      rw [deductFromInventory_fst]
      have hp : deductPre i r q inv ms u = inv := by simp only [deductPre, hloop]
      rw [hp, hfilter]
    have h2 : (deductFromInventory i r q inv ms u).2 = [] := by
      show deductLines i r q inv ms u = []
      simp only [deductLines, hloop]
    exact Prod.ext h1 h2
  · have hrel : deductRelevant i inv u = [] := by
      rw [deductRelevant, List.filter_eq_nil_iff]
      intro p hp
      have hmem : p.2 ∈ inv := by
        rcases List.getElem?_eq_some_iff.mp (List.mem_enum_iff_getElem?.mp hp) with
          ⟨hlt, hget⟩
        rw [← hget]
        exact List.getElem_mem hlt
      have hnc := hnone p.2 hmem
      simp only [Bool.and_eq_true, beq_iff_eq, not_and]
      intro h1 h2
      exact hnc ⟨h1, h2⟩
    have hsorted : deductSorted i r inv u = [] := by
      simp [deductSorted, hrel]
    have h1 : (deductFromInventory i r q inv ms u).1 = inv := by
      rw [deductFromInventory_fst]
      have hp : deductPre i r q inv ms u = inv := by
        simp only [deductPre, hsorted, deductLoop]
      rw [hp, hfilter]
    have h2 : (deductFromInventory i r q inv ms u).2 = [] := by
      show deductLines i r q inv ms u = []
      simp only [deductLines, hsorted, deductLoop]
    exact Prod.ext h1 h2

/-- Witness for C5: a negative required quantity against a candidate-free,
sentinel-free inventory returns it unchanged with no deducted lines. -/
theorem deduct_noop_cases_witness :
    deductFromInventory "flour" "cup" (-1) [⟨"u1", "flour", "cup", 5⟩] [] "u2" =
      ([⟨"u1", "flour", "cup", 5⟩], []) := by
  refine deduct_noop_cases "flour" "cup" "u2" (-1) [⟨"u1", "flour", "cup", 5⟩] []
    (fun it hit => ?_) (Or.inl (by norm_num))
  simp at hit
  simp [hit]
  norm_num

end Cucina

namespace Cucina

/-- Taking stock rewrites only the quantity; the three id fields survive. -/
theorem modForm_ids (item : InventoryItem) (t : ℚ) :
    (modForm item t).userId = item.userId ∧
    (modForm item t).ingredientId = item.ingredientId ∧
    (modForm item t).measurementId = item.measurementId := by
  unfold modForm
  split
  · exact ⟨rfl, rfl, rfl⟩
  · exact ⟨rfl, rfl, rfl⟩

/-- Untouchedness never looks at the quantity, so it is blind to `modForm`. -/
theorem untouchedRecord_modForm (i r u : String) (ms : List Measurement)
    (item : InventoryItem) (t : ℚ) :
    untouchedRecord i r u ms (modForm item t) = untouchedRecord i r u ms item := by
  unfold untouchedRecord isCandidate modForm
  split
  · rfl
  · rfl

/-- Two lists of one length whose entries agree pointwise except where the
predicate fails on both sides have the same filtrate. -/
theorem filter_congr_of_pointwise {α : Type} (p : α → Bool) :
    ∀ (l l' : List α), l.length = l'.length →
      (∀ (j : Nat) a b, l[j]? = some a → l'[j]? = some b →
        a = b ∨ (p a = false ∧ p b = false)) →
      l.filter p = l'.filter p := by
  intro l
  induction l with
  | nil =>
    intro l' hlen _
    cases l' with
    | nil => rfl
    | cons y ys => simp at hlen
  | cons x xs ih =>
    intro l' hlen hpt
    cases l' with
    | nil => simp at hlen
    | cons y ys =>
      have hrest : xs.filter p = ys.filter p :=
        ih ys (by simpa using hlen)
          (fun j a b ha hb => hpt (j + 1) a b (by simpa using ha) (by simpa using hb))
      rcases hpt 0 x y (by simp) (by simp) with rfl | ⟨hpx, hpy⟩
      · rw [List.filter_cons, List.filter_cons, hrest]
      · rw [List.filter_cons, List.filter_cons, hpx, hpy, hrest]
        simp

/-! ## C6 — frame: untouched records survive unchanged, in order -/

/-- C6 as stated is false: a record matching neither owner nor ingredient —
which the deduction never touches — is nonetheless dropped from
`updatedInventory` when its quantity happens to be the `-1` sentinel. -/
theorem deduct_frame_counterexample :
    (deductFromInventory "flour" "cup" 1 [⟨"u2", "salt", "g", -1⟩] [] "u1").1 = [] ∧
    (⟨"u2", "salt", "g", -1⟩ : InventoryItem) ∉
      (deductFromInventory "flour" "cup" 1 [⟨"u2", "salt", "g", -1⟩] [] "u1").1 := by
  constructor
  · simp [deductFromInventory, deductPre, deductLines, deductSorted, deductRelevant,
      deductLoop, List.enum]
  · simp [deductFromInventory, deductPre, deductLines, deductSorted, deductRelevant,
      deductLoop, List.enum]

/-- C6 amended: on inventories free of the `-1` sentinel quantity, every
record the deduction does not touch — non-candidates, and candidates whose
unit the required unit cannot convert into — appears unchanged in
`updatedInventory`, with the untouched records in their original relative
order (their filtrates coincide). -/
theorem deduct_frame (i r u : String) (q : ℚ) (inv : List InventoryItem)
    (ms : List Measurement) (hclean : ∀ it ∈ inv, it.quantity ≠ -1) :
    (deductFromInventory i r q inv ms u).1.filter (untouchedRecord i r u ms) =
      inv.filter (untouchedRecord i r u ms) ∧
    ∀ it ∈ inv, untouchedRecord i r u ms it = true →
      it ∈ (deductFromInventory i r q inv ms u).1 := by
  have hent := deductLoop_entries r i u ms inv (deductSorted i r inv u) q inv []
    (fun p hp => mem_deductSorted i r u inv p hp) rfl (fun j => Or.inl rfl)
  have hlen : (deductPre i r q inv ms u).length = inv.length :=
    deductLoop_length r ms (deductSorted i r inv u) q inv []
  have hpt : ∀ (j : Nat) a b, inv[j]? = some a → (deductPre i r q inv ms u)[j]? = some b →
      a = b ∨ ((fun x => untouchedRecord i r u ms x && decide (x.quantity ≠ -1)) a = false ∧
        (fun x => untouchedRecord i r u ms x && decide (x.quantity ≠ -1)) b = false) := by
    intro j a b ha hb
    rcases hent j with hsame | ⟨item, t, hitem, _, hcand, hsome, hmod⟩
    · left
      have : (deductPre i r q inv ms u)[j]? = inv[j]? := hsame
      rw [this, ha] at hb
      exact Option.some.inj hb
    · right
      have haitem : a = item := Option.some.inj (ha.symm.trans hitem)
      have hbmod : b = modForm item t := by
        have : (deductPre i r q inv ms u)[j]? = some (modForm item t) := hmod
        rw [this] at hb
        exact (Option.some.inj hb).symm
      have huntouched : untouchedRecord i r u ms item = false := by
        simp [untouchedRecord, hcand, hsome]
      constructor
      · simp only [haitem, huntouched, Bool.false_and]
      · simp only [hbmod, untouchedRecord_modForm, huntouched, Bool.false_and]
  have hfeq : inv.filter (fun x => untouchedRecord i r u ms x && decide (x.quantity ≠ -1)) =
      (deductPre i r q inv ms u).filter
        (fun x => untouchedRecord i r u ms x && decide (x.quantity ≠ -1)) :=
    filter_congr_of_pointwise _ inv (deductPre i r q inv ms u) hlen.symm hpt
  have hresult : (deductFromInventory i r q inv ms u).1.filter (untouchedRecord i r u ms) =
      (deductPre i r q inv ms u).filter
        (fun x => untouchedRecord i r u ms x && decide (x.quantity ≠ -1)) := by
    rw [deductFromInventory_fst, List.filter_filter]
  have hinv : inv.filter (fun x => untouchedRecord i r u ms x && decide (x.quantity ≠ -1)) =
      inv.filter (untouchedRecord i r u ms) := by
    refine List.filter_congr (fun x hx => ?_)
    have := hclean x hx
    simp [this]
  have hmain : (deductFromInventory i r q inv ms u).1.filter (untouchedRecord i r u ms) =
      inv.filter (untouchedRecord i r u ms) := by
    rw [hresult, ← hfeq, hinv]
  refine ⟨hmain, fun it hit hunt => ?_⟩
  have hmem : it ∈ inv.filter (untouchedRecord i r u ms) :=
    List.mem_filter.mpr ⟨hit, hunt⟩
  rw [← hmain] at hmem
  exact (List.mem_filter.mp hmem).1

/-- Witness for C6: a lone record of another owner and ingredient — untouched
by the deduction — survives as the untouched filtrate of the result. -/
theorem deduct_frame_witness :
    (deductFromInventory "flour" "cup" 1 [⟨"u2", "salt", "g", 7⟩] [] "u1").1.filter
        (untouchedRecord "flour" "cup" "u1" []) =
      [⟨"u2", "salt", "g", 7⟩].filter (untouchedRecord "flour" "cup" "u1" []) := by
  exact (deduct_frame "flour" "cup" "u1" 1 [⟨"u2", "salt", "g", 7⟩] []
    (by intro it hit; simp at hit; simp [hit]; norm_num)).1

end Cucina

namespace Cucina

/-! ## C3 — exact unit matches are processed first -/

/-- C3: the processing order splits into a block of exact unit matches
followed by a block of other units — every exact-match candidate is processed
before any candidate in a different unit — and together the two blocks are a
permutation of the candidate records; concretely, with a 1-cup exact-match
record listed *after* a 160-tablespoon record (worth 10 cups), deducting
1 cup consumes the exact match entirely and leaves the other untouched. -/
theorem deduct_exact_match_first (i r u : String) (inv : List InventoryItem) :
    (∃ l1 l2, deductSorted i r inv u = l1 ++ l2 ∧
      (∀ p ∈ l1, (p : Nat × InventoryItem).2.measurementId = r) ∧
      (∀ p ∈ l2, (p : Nat × InventoryItem).2.measurementId ≠ r) ∧
      (l1 ++ l2).Perm (deductRelevant i inv u)) ∧
    deductFromInventory "flour" "cup" 1
      [⟨"u1", "flour", "tbsp", 160⟩, ⟨"u1", "flour", "cup", 1⟩]
      [⟨"cup", [⟨"tbsp", 16⟩]⟩, ⟨"tbsp", [⟨"cup", 1/16⟩]⟩] "u1" =
      ([⟨"u1", "flour", "tbsp", 160⟩], [⟨"cup", 1⟩]) := by
  constructor
  · refine ⟨_, _, rfl, fun p hp => ?_, fun p hp => ?_, List.filter_append_perm _ _⟩
    · have := (List.mem_filter.mp hp).2
      simpa using this
    · have := (List.mem_filter.mp hp).2
      simpa using this
  · simp [deductFromInventory, deductPre, deductLines, deductSorted, deductRelevant,
      deductLoop, convertMeasurement, List.enum, List.enumFrom]
    norm_num

/-- Witness for C3 at a concrete call: the sorted candidate list of the
scenario above really is the exact match followed by the other-unit record. -/
theorem deduct_exact_match_first_witness :
    ∃ l1 l2, deductSorted "flour" "cup"
        [⟨"u1", "flour", "tbsp", 160⟩, ⟨"u1", "flour", "cup", 1⟩] "u1" = l1 ++ l2 ∧
      (∀ p ∈ l1, (p : Nat × InventoryItem).2.measurementId = "cup") ∧
      (∀ p ∈ l2, (p : Nat × InventoryItem).2.measurementId ≠ "cup") ∧
      (l1 ++ l2).Perm (deductRelevant "flour"
        [⟨"u1", "flour", "tbsp", 160⟩, ⟨"u1", "flour", "cup", 1⟩] "u1") :=
  (deduct_exact_match_first "flour" "cup" "u1"
    [⟨"u1", "flour", "tbsp", 160⟩, ⟨"u1", "flour", "cup", 1⟩]).1

end Cucina

namespace Cucina

/-- Sums of deducted lines distribute over appended line lists. -/
theorem sumDeductedInUnit_append (r : String) (ms : List Measurement)
    (l1 l2 : List DeductedLine) :
    sumDeductedInUnit r ms (l1 ++ l2) =
      sumDeductedInUnit r ms l1 + sumDeductedInUnit r ms l2 := by
  simp [sumDeductedInUnit]

/-- Under a consistent catalog, convertible stock valued in the required unit
is nonnegative when the record quantities are. -/
theorem availableConvertibleStock_nonneg (req : String) (ms : List Measurement)
    (H : ConsistentCatalog req ms) (cands : List InventoryItem)
    (hq : ∀ it ∈ cands, 0 ≤ it.quantity) :
    0 ≤ availableConvertibleStock req ms cands := by
  refine List.sum_nonneg ?_
  intro x hx
  rcases List.mem_map.mp hx with ⟨item, hitem, rfl⟩
  by_cases hs : (convertMeasurement req item.measurementId 1 ms).isSome = true
  · obtain ⟨f, g, _, hg, hfpos, hfg⟩ := H item.measurementId hs
    have hgpos : 0 < g := by nlinarith
    rw [if_pos hs, convertMeasurement_linear item.measurementId req ms g hg item.quantity]
    exact mul_nonneg (hq item hitem) (le_of_lt hgpos)
  · rw [if_neg hs]

/-- The waterfilling step: taking `min a R` first and then filling the rest
from a pool `s ≥ 0` fills `min R (a + s)` in total. -/
theorem min_waterfill (a s R : ℚ) (hs : 0 ≤ s) :
    min a R + min (R - min a R) s = min R (a + s) := by
  rcases le_total a R with h | h
  · rw [min_eq_left h]
    rcases le_total (R - a) s with h2 | h2
    · rw [min_eq_left h2, min_eq_left (by linarith)]
      ring
    · rw [min_eq_right h2, min_eq_right (by linarith)]
  · rw [min_eq_right h, sub_self, min_eq_left hs, min_eq_left (by linarith)]
    ring

/-- Valuing the two blocks of a filter partition and adding them is valuing
the whole list. -/
theorem map_snd_filter_sum (g : InventoryItem → ℚ) (p : Nat × InventoryItem → Bool) :
    ∀ rel : List (Nat × InventoryItem),
      (((rel.filter p).map Prod.snd).map g).sum +
        (((rel.filter (fun x => !p x)).map Prod.snd).map g).sum =
      ((rel.map Prod.snd).map g).sum := by
  intro rel
  induction rel with
  | nil => simp
  | cons hd rest ih =>
    cases hp : p hd with
    | true =>
      simp only [List.map_map] at ih
      simp [List.filter_cons, hp]
      linarith [ih]
    | false =>
      simp only [List.map_map] at ih
      simp [List.filter_cons, hp]
      linarith [ih]

/-- The loop's deducted lines, valued in the required unit, fill exactly
`min remaining (convertible stock ahead)` — under a consistent catalog and
nonnegative stock. -/
theorem deductLoop_sum (req : String) (ms : List Measurement)
    (H : ConsistentCatalog req ms) :
    ∀ (cs : List (Nat × InventoryItem)) (R : ℚ) (inv : List InventoryItem)
      (ded : List DeductedLine),
      0 ≤ R → (∀ p ∈ cs, 0 ≤ (p : Nat × InventoryItem).2.quantity) →
      sumDeductedInUnit req ms ((deductLoop req ms cs R inv ded).2.2) =
        sumDeductedInUnit req ms ded +
          min R (availableConvertibleStock req ms (cs.map Prod.snd)) := by
  intro cs
  induction cs with
  | nil =>
    intro R inv ded hR _
    simp [deductLoop, availableConvertibleStock, min_eq_right hR]
  | cons hd rest ih =>
    intro R inv ded hR hq
    obtain ⟨idx, item⟩ := hd
    have hqrest : ∀ p ∈ rest, 0 ≤ (p : Nat × InventoryItem).2.quantity :=
      fun p hp => hq p (List.mem_cons_of_mem _ hp)
    have hqmap : ∀ it ∈ rest.map Prod.snd, 0 ≤ it.quantity := by
      intro it hit
      rcases List.mem_map.mp hit with ⟨p, hp, rfl⟩
      exact hqrest p hp
    have hSnn : 0 ≤ availableConvertibleStock req ms (rest.map Prod.snd) :=
      availableConvertibleStock_nonneg req ms H _ hqmap
    by_cases hR0 : R ≤ 0
    · have hR0' : R = 0 := le_antisymm hR0 hR
      subst hR0'
      rw [deductLoop_nonpos req ms _ 0 inv ded le_rfl]
      have hSnn' : 0 ≤ availableConvertibleStock req ms (item :: rest.map Prod.snd) := by
        refine availableConvertibleStock_nonneg req ms H _ ?_
        intro it hit
        rcases List.mem_cons.mp hit with heq | hit'
        · rw [heq]
          exact hq (idx, item) (List.mem_cons_self _ _)
        · exact hqmap it hit'
      simp [min_eq_left hSnn']
    · cases hconv : convertMeasurement req item.measurementId R ms with
      | none =>
        simp only [deductLoop, if_neg hR0, hconv]
        rw [ih R inv ded hR hqrest]
        have hnotsome : (convertMeasurement req item.measurementId 1 ms).isSome = false := by
          rw [convertMeasurement_isSome_congr req item.measurementId ms 1 R, hconv]
          rfl
        simp [availableConvertibleStock, hnotsome]
      | some amount =>
        simp only [deductLoop, if_neg hR0, hconv]
        have hsome1 : (convertMeasurement req item.measurementId 1 ms).isSome = true := by
          rw [convertMeasurement_isSome_congr req item.measurementId ms 1 R, hconv]
          rfl
        obtain ⟨f, g, hf, hg, hfpos, hfg⟩ := H item.measurementId hsome1
        have hgpos : 0 < g := by nlinarith
        have hamount : amount = R * f := by
          have hlin := convertMeasurement_linear req item.measurementId ms f hf R
          rw [hconv] at hlin
          exact Option.some.inj hlin
        have hback : convertMeasurement item.measurementId req
            (min item.quantity amount) ms = some (min item.quantity amount * g) :=
          convertMeasurement_linear item.measurementId req ms g hg _
        simp only [hback]
        have htg : min item.quantity amount * g = min (item.quantity * g) R := by
          rw [min_mul_of_nonneg _ _ (le_of_lt hgpos), hamount, mul_assoc, hfg, mul_one]
        have hR' : 0 ≤ R - min item.quantity amount * g := by
          rw [htg]
          exact sub_nonneg.mpr (min_le_right _ _)
        rw [ih _ _ _ hR' hqrest, sumDeductedInUnit_append]
        have hline : sumDeductedInUnit req ms
            [{ measurementId := item.measurementId, quantity := min item.quantity amount }] =
            min item.quantity amount * g := by
          simp [sumDeductedInUnit, hback]
        rw [hline]
        have hstock : availableConvertibleStock req ms (((idx, item) :: rest).map Prod.snd) =
            item.quantity * g + availableConvertibleStock req ms (rest.map Prod.snd) := by
          simp [availableConvertibleStock, hsome1,
            convertMeasurement_linear item.measurementId req ms g hg item.quantity]
        rw [hstock, htg]
        have hwf := min_waterfill (item.quantity * g)
          (availableConvertibleStock req ms (rest.map Prod.snd)) R hSnn
        linarith

end Cucina

namespace Cucina

/-! ## C1 — the deduction-sum invariant -/

/-- C1 as stated is false: with edges `a→b` factor 1 and `b→a` factor 2 (a
conversion graph the engine never validates), deducting 1 `a` from a single
record of 1 `b` produces deducted lines worth 2 in unit `a` — exceeding the
required quantity by exactly 1, not by floating-point noise. -/
theorem deduct_overtake_counterexample :
    sumDeductedInUnit "a" [⟨"a", [⟨"b", 1⟩]⟩, ⟨"b", [⟨"a", 2⟩]⟩]
      (deductFromInventory "i" "a" 1 [⟨"u", "i", "b", 1⟩]
        [⟨"a", [⟨"b", 1⟩]⟩, ⟨"b", [⟨"a", 2⟩]⟩] "u").2 = 2 ∧
    ¬ ((2 : ℚ) ≤ 1) := by
  constructor
  · have hres : (deductFromInventory "i" "a" 1 [⟨"u", "i", "b", 1⟩]
        [⟨"a", [⟨"b", 1⟩]⟩, ⟨"b", [⟨"a", 2⟩]⟩] "u").2 = [⟨"b", 1⟩] := by
      simp [deductFromInventory, deductLines, deductPre, deductSorted,
        deductRelevant, deductLoop, convertMeasurement, List.enum, List.enumFrom]
      norm_num
    rw [hres]
    simp [sumDeductedInUnit, convertMeasurement]
  · norm_num

/-- C1 amended: when every unit the required unit converts into converts back
at the exact inverse positive factor (a consistent catalog — the property the
engine relies on but never checks), and quantities are nonnegative, the
deducted lines converted into the required unit sum to exactly
`min requiredQuantity (available convertible candidate stock)`: the maximum
satisfiable amount, and in particular never more than requiredQuantity. -/
theorem deduct_sum_invariant (i r u : String) (q : ℚ) (inv : List InventoryItem)
    (ms : List Measurement) (H : ConsistentCatalog r ms)
    (hq : ∀ it ∈ inv, 0 ≤ it.quantity) (hr : 0 ≤ q) :
    sumDeductedInUnit r ms (deductFromInventory i r q inv ms u).2 =
      min q (availableConvertibleStock r ms ((deductRelevant i inv u).map Prod.snd)) ∧
    sumDeductedInUnit r ms (deductFromInventory i r q inv ms u).2 ≤ q := by
  have hcand_q : ∀ p ∈ deductSorted i r inv u, 0 ≤ (p : Nat × InventoryItem).2.quantity := by
    intro p hp
    have hget := (mem_deductSorted i r u inv p hp).1
    rcases List.getElem?_eq_some_iff.mp hget with ⟨hlt, hgeteq⟩
    rw [← hgeteq]
    exact hq _ (List.getElem_mem hlt)
  have hloop := deductLoop_sum r ms H (deductSorted i r inv u) q inv [] hr hcand_q
  have h2 : (deductFromInventory i r q inv ms u).2 =
      (deductLoop r ms (deductSorted i r inv u) q inv []).2.2 := rfl
  have hz : sumDeductedInUnit r ms [] = 0 := rfl
  have hpart : availableConvertibleStock r ms ((deductSorted i r inv u).map Prod.snd) =
      availableConvertibleStock r ms ((deductRelevant i inv u).map Prod.snd) := by
    simp only [deductSorted, List.map_append, availableConvertibleStock, List.sum_append]
    exact map_snd_filter_sum _ (fun p => p.2.measurementId == r) (deductRelevant i inv u)
  rw [h2, hloop, hz, zero_add, hpart]
  exact ⟨rfl, min_le_left _ _⟩

/-- Witness for C1: a consistent cup/tablespoon catalog, 8 tbsp on hand and
1 cup required — the deducted lines are worth exactly `1/2` cup, the whole
convertible stock. -/
theorem deduct_sum_invariant_witness :
    sumDeductedInUnit "cup" [⟨"cup", [⟨"tbsp", 16⟩]⟩, ⟨"tbsp", [⟨"cup", 1/16⟩]⟩]
      (deductFromInventory "flour" "cup" 1 [⟨"u1", "flour", "tbsp", 8⟩]
        [⟨"cup", [⟨"tbsp", 16⟩]⟩, ⟨"tbsp", [⟨"cup", 1/16⟩]⟩] "u1").2 = 1/2 := by
  have hcat : ConsistentCatalog "cup" [⟨"cup", [⟨"tbsp", 16⟩]⟩, ⟨"tbsp", [⟨"cup", 1/16⟩]⟩] := by
    intro v hv
    by_cases h1 : v = "cup"
    · subst h1
      exact ⟨1, 1, by simp [convertMeasurement], by simp [convertMeasurement], by norm_num,
        by norm_num⟩
    · by_cases h2 : v = "tbsp"
      · subst h2
        refine ⟨16, 1/16, ?_, ?_, by norm_num, by norm_num⟩
        · simp [convertMeasurement]
        · simp [convertMeasurement]
      · exfalso
        have hcc : ¬("cup" = v) := fun hc => h1 hc.symm
        have hct : ¬("tbsp" = v) := fun hc => h2 hc.symm
        rw [show (convertMeasurement "cup" v 1
            [⟨"cup", [⟨"tbsp", 16⟩]⟩, ⟨"tbsp", [⟨"cup", 1/16⟩]⟩]).isSome = false from by
          simp [convertMeasurement, hcc, hct]] at hv
        exact Bool.false_ne_true hv
  have h := (deduct_sum_invariant "flour" "cup" "u1" 1 [⟨"u1", "flour", "tbsp", 8⟩]
    [⟨"cup", [⟨"tbsp", 16⟩]⟩, ⟨"tbsp", [⟨"cup", 1/16⟩]⟩] hcat
    (by intro it hit; simp at hit; simp [hit]) (by norm_num)).1
  rw [h]
  simp [availableConvertibleStock, deductRelevant, convertMeasurement, List.enum,
    List.enumFrom, min_def]
  norm_num

end Cucina
